import Mathlib

/-!
Shallow embedding of `pkg/vsphere/infrastructure/ensurer/ensurer.go`
(gardener-extension-provider-vsphere).

The file models the reconciliation orchestrator: the `ensurer` struct, its
`tryRecover` helper and the two public operations `EnsureInfrastructure`
and `EnsureInfrastructureDeleted`.  The individual task bodies
(`task.Task` implementations), the NSX-T clients, the specification type
`vinfra.NSXTInfraSpec` and the state type `api.NSXTInfraState` are not part
of the translated source; they are abstracted as type parameters and as
records of state-transforming functions, exactly as the orchestrator sees
them through the `task.Task` interface.  Every call the orchestrator makes
(task `Ensure`, `EnsureDeleted`, recovery, log output) is recorded in an
event trace so that ordering and abort properties can be stated.
-/

namespace VsphereInfra

/-- A remote-resource reference as the orchestrator uses it: it only ever
reads the `ID` field (for the `"id"` log key/value pair). -/
structure Reference where
  id : String
deriving Repr, DecidableEq

/-- The optional recovery capability of a task, mirroring the Go type
switch in `tryRecover`: a task may implement `task.RecoverableTask`
(recovered via `task.TryRecover(e, state, rt, spec.CreateTags())`),
`task.RecoverableAdvancedTask` (recovered via
`rt.TryRecover(e, state, spec.CreateCommonTags())`), or neither.  In both
recoverable branches the Go code discards any result, so the recovery
operation is modelled as a state transformation derived from the
specification (the tag sets `CreateTags`/`CreateCommonTags` are functions
of the specification). -/
inductive RecoverKind (Spec σ : Type) where
  | notRecoverable : RecoverKind Spec σ
  | recoverable (tryRecoverFn : Spec → σ → σ) : RecoverKind Spec σ
  | recoverableAdvanced (tryRecoverFn : Spec → σ → σ) : RecoverKind Spec σ

/-- A task as seen through the `task.Task` interface.  `ensure` and
`ensureDeleted` return the mutated state together with their Go results
(`(action, error)` resp. `(deleted, error)`); errors are `Except.error`
with the error message as the payload. -/
structure Task (Spec σ : Type) where
  label : String
  nameToLog : Spec → Option String
  reference : σ → Option Reference
  ensure : Spec → σ → σ × Except String String
  ensureDeleted : σ → σ × Except String Bool
  recover : RecoverKind Spec σ

/-- Observable events of one orchestrator run, in execution order:
invocations of `Ensure` (with a flag telling whether the call came from
`tryRecover`'s lookup branch), invocations of `EnsureDeleted`, entries
into a recovery branch, and `logger.Info` lines with their key/value
pairs. -/
inductive Event (Spec σ : Type) where
  | recoverTried (tsk : Task Spec σ)
  | ensureCalled (tsk : Task Spec σ) (fromLookup : Bool)
  | ensureDeletedCalled (tsk : Task Spec σ)
  | logged (msg : String) (keysAndVals : List (String × String))

/-- The `ensurer` struct: logger, connector and NSX-T client handles are
opaque (`Λ`, `Κ`, `Ν`), plus the fixed ordered task list. -/
structure Ensurer (Λ Κ Ν Spec σ : Type) where
  logger : Λ
  connector : Κ
  nsxtClient : Ν
  tasks : List (Task Spec σ)

variable {Λ Κ Ν Spec σ : Type}

/-- `func (e *ensurer) IsTryRecoverEnabled() bool { return true }`. -/
def Ensurer.IsTryRecoverEnabled (_e : Ensurer Λ Κ Ν Spec σ) : Bool :=
  true

/-- `errors.Wrapf(err, msg)`: the resulting error message is the wrapping
message followed by the cause. -/
def wrapf (err msg : String) : String :=
  msg ++ ": " ++ err

/-- The error component of a Go `(value, error)` result. -/
def exceptErr {ε α : Type} : Except ε α → Option ε
  | .ok _ => none
  | .error e => some e

/-- The `keysAndVals` slice built in `EnsureInfrastructure` after a
successful `Ensure`: the task's loggable name (if any) followed by the
reference ID currently in state (if any). -/
def logKeysAndVals (spec : Spec) (tsk : Task Spec σ) (state : σ) :
    List (String × String) :=
  (match tsk.nameToLog spec with
   | some name => [("name", name)]
   | none => []) ++
  (match tsk.reference state with
   | some ref => [("id", ref.id)]
   | none => [])

/-- The `keysAndVals` slice built for the `"try recover failed"` log line
in `EnsureInfrastructureDeleted` (name only). -/
def recoverFailKV (spec : Spec) (tsk : Task Spec σ) : List (String × String) :=
  match tsk.nameToLog spec with
  | some name => [("name", name)]
  | none => []

/-- `func (e *ensurer) tryRecover(spec, state, tsk, lookup) error`.
Returns the state after the call, the events it produced, and its Go
return value.  When try-recover is enabled and the task has no stored
reference: a `RecoverableTask` or `RecoverableAdvancedTask` runs its
recovery (results discarded, return `nil`); otherwise, if `lookup` is
set, the task's `Ensure` is invoked and its error returned; otherwise
nothing happens and `nil` is returned. -/
def tryRecover (e : Ensurer Λ Κ Ν Spec σ) (spec : Spec) (state : σ)
    (tsk : Task Spec σ) (lookup : Bool) :
    σ × List (Event Spec σ) × Option String :=
  if e.IsTryRecoverEnabled && (tsk.reference state).isNone then
    match tsk.recover, lookup with
    | .recoverable f, _ => (f spec state, [.recoverTried tsk], none)
    | .recoverableAdvanced f, _ => (f spec state, [.recoverTried tsk], none)
    | .notRecoverable, true =>
        ((tsk.ensure spec state).1, [.ensureCalled tsk true],
          exceptErr (tsk.ensure spec state).2)
    | .notRecoverable, false => (state, [], none)
  else
    (state, [], none)

/-- The loop body of `EnsureInfrastructure`, iterating over the task list:
for each task, call `tryRecover` (its error discarded, `_ =`), then
`Ensure`; abort with the wrapped error on failure, otherwise log the
action and continue with the remaining tasks. -/
def ensureLoop (e : Ensurer Λ Κ Ν Spec σ) (spec : Spec) :
    List (Task Spec σ) → σ → σ × List (Event Spec σ) × Option String
  | [], state => (state, [], none)
  | tsk :: rest, state =>
      let rc := tryRecover e spec state tsk false
      let en := tsk.ensure spec rc.1
      match en.2 with
      | .error err =>
          (en.1, rc.2.1 ++ [.ensureCalled tsk false],
            some (wrapf err (tsk.label ++ " failed")))
      | .ok action =>
          let res := ensureLoop e spec rest en.1
          (res.1,
            rc.2.1 ++
              [.ensureCalled tsk false,
               .logged (tsk.label ++ " " ++ action) (logKeysAndVals spec tsk en.1)] ++
              res.2.1,
            res.2.2)

/-- `func (e *ensurer) EnsureInfrastructure(spec, state) error`.  The
receiver is returned unchanged alongside the final state, trace and
result: the method body contains no assignment to any field of `e`, so
threading the receiver through makes its immutability explicit. -/
def EnsureInfrastructure (e : Ensurer Λ Κ Ν Spec σ) (spec : Spec) (state : σ) :
    Ensurer Λ Κ Ν Spec σ × σ × List (Event Spec σ) × Option String :=
  (e, ensureLoop e spec e.tasks state)

/-- The recovery pre-pass loop of `EnsureInfrastructureDeleted` (the body
of `if spec != nil`): for each task in creation order, call `tryRecover`
with `lookup` set; on error log `"try recover failed"` and continue.  It
can produce no error of its own. -/
def recoverPrePass (e : Ensurer Λ Κ Ν Spec σ) (spec : Spec) :
    List (Task Spec σ) → σ → σ × List (Event Spec σ)
  | [], state => (state, [])
  | tsk :: rest, state =>
      let rc := tryRecover e spec state tsk true
      let logEvs : List (Event Spec σ) :=
        match rc.2.2 with
        | some _ => [.logged "try recover failed" (recoverFailKV spec tsk)]
        | none => []
      let res := recoverPrePass e spec rest rc.1
      (res.1, rc.2.1 ++ logEvs ++ res.2)

/-- The delete pass of `EnsureInfrastructureDeleted`: the Go loop
`for i := len(e.tasks) - 1; i >= 0; i--` visits the reversed task list;
each `EnsureDeleted` failure aborts with the wrapped error, a successful
deletion (`deleted = true`) logs `label + " deleted"`. -/
def deleteLoop : List (Task Spec σ) → σ → σ × List (Event Spec σ) × Option String
  | [], state => (state, [], none)
  | tsk :: rest, state =>
      let dl := tsk.ensureDeleted state
      match dl.2 with
      | .error err =>
          (dl.1, [.ensureDeletedCalled tsk],
            some (wrapf err ("deleting " ++ tsk.label ++ " failed")))
      | .ok deleted =>
          let logEvs : List (Event Spec σ) :=
            if deleted then [.logged (tsk.label ++ " deleted") []] else []
          let res := deleteLoop rest dl.1
          (res.1, .ensureDeletedCalled tsk :: (logEvs ++ res.2.1), res.2.2)

/-- The state and trace produced by the optional recovery pre-pass: the
pre-pass runs exactly when the specification pointer is non-nil. -/
def prePass (e : Ensurer Λ Κ Ν Spec σ) (specOpt : Option Spec) (state : σ) :
    σ × List (Event Spec σ) :=
  match specOpt with
  | some spec => recoverPrePass e spec e.tasks state
  | none => (state, [])

/-- `func (e *ensurer) EnsureInfrastructureDeleted(spec *vinfra.NSXTInfraSpec,
state *api.NSXTInfraState) error`: optional recovery pre-pass (spec
non-nil only), then the unconditional reverse-order delete pass.  As for
`EnsureInfrastructure`, the receiver is threaded through unchanged. -/
def EnsureInfrastructureDeleted (e : Ensurer Λ Κ Ν Spec σ)
    (specOpt : Option Spec) (state : σ) :
    Ensurer Λ Κ Ν Spec σ × σ × List (Event Spec σ) × Option String :=
  let pre := prePass e specOpt state
  let del := deleteLoop e.tasks.reverse pre.1
  (e, del.1, pre.2 ++ del.2.1, del.2.2)

/-- The tasks whose `Ensure` was invoked, in call order (from either the
main reconcile loop or `tryRecover`'s lookup branch). -/
def ensureCalls (evs : List (Event Spec σ)) : List (Task Spec σ) :=
  evs.filterMap fun ev =>
    match ev with
    | .ensureCalled tsk _ => some tsk
    | _ => none

/-- The tasks whose `EnsureDeleted` was invoked, in call order. -/
def deletedCalls (evs : List (Event Spec σ)) : List (Task Spec σ) :=
  evs.filterMap fun ev =>
    match ev with
    | .ensureDeletedCalled tsk => some tsk
    | _ => none

/-- The tasks for which a recovery branch (`RecoverableTask` or
`RecoverableAdvancedTask`) was entered, in call order. -/
def recoverTrieds (evs : List (Event Spec σ)) : List (Task Spec σ) :=
  evs.filterMap fun ev =>
    match ev with
    | .recoverTried tsk => some tsk
    | _ => none

/-- The tasks whose `Ensure` was invoked from `tryRecover`'s lookup
branch, in call order. -/
def lookupCalls (evs : List (Event Spec σ)) : List (Task Spec σ) :=
  evs.filterMap fun ev =>
    match ev with
    | .ensureCalled tsk true => some tsk
    | _ => none

/-- State after one reconcile step for one task: `tryRecover` (with
`lookup = false`) followed by `Ensure`, regardless of the latter's
success. -/
def afterTask (e : Ensurer Λ Κ Ν Spec σ) (spec : Spec) (tsk : Task Spec σ)
    (s : σ) : σ :=
  (tsk.ensure spec (tryRecover e spec s tsk false).1).1

/-- State after reconcile steps for a list of tasks in order. -/
def afterTasks (e : Ensurer Λ Κ Ν Spec σ) (spec : Spec)
    (ts : List (Task Spec σ)) (s : σ) : σ :=
  ts.foldl (fun s t => afterTask e spec t s) s

/-- State after one delete-recovery pre-pass step for one task. -/
def preStep (e : Ensurer Λ Κ Ν Spec σ) (spec : Spec) (tsk : Task Spec σ)
    (s : σ) : σ :=
  (tryRecover e spec s tsk true).1

/-- State after pre-pass steps for a list of tasks in order. -/
def preAfter (e : Ensurer Λ Κ Ν Spec σ) (spec : Spec)
    (ts : List (Task Spec σ)) (s : σ) : σ :=
  ts.foldl (fun s t => preStep e spec t s) s

/-- State after one `EnsureDeleted` call, regardless of its success. -/
def delStep (tsk : Task Spec σ) (s : σ) : σ :=
  (tsk.ensureDeleted s).1

/-- State after `EnsureDeleted` calls for a list of tasks in order. -/
def delAfter (ts : List (Task Spec σ)) (s : σ) : σ :=
  ts.foldl (fun s t => delStep t s) s

/-! ### Basic facts about the trace extractors -/

@[simp] lemma ensureCalls_nil : ensureCalls ([] : List (Event Spec σ)) = [] := rfl

@[simp] lemma ensureCalls_append (a b : List (Event Spec σ)) :
    ensureCalls (a ++ b) = ensureCalls a ++ ensureCalls b :=
  List.filterMap_append _ _ _

@[simp] lemma ensureCalls_cons_ensure (t : Task Spec σ) (b : Bool)
    (rest : List (Event Spec σ)) :
    ensureCalls (.ensureCalled t b :: rest) = t :: ensureCalls rest := rfl

@[simp] lemma ensureCalls_cons_recover (t : Task Spec σ)
    (rest : List (Event Spec σ)) :
    ensureCalls (.recoverTried t :: rest) = ensureCalls rest := rfl

@[simp] lemma ensureCalls_cons_deleted (t : Task Spec σ)
    (rest : List (Event Spec σ)) :
    ensureCalls (.ensureDeletedCalled t :: rest) = ensureCalls rest := rfl

@[simp] lemma ensureCalls_cons_logged (msg : String) (kv : List (String × String))
    (rest : List (Event Spec σ)) :
    ensureCalls ((Event.logged msg kv : Event Spec σ) :: rest)
      = ensureCalls rest := rfl

@[simp] lemma deletedCalls_nil : deletedCalls ([] : List (Event Spec σ)) = [] := rfl

@[simp] lemma deletedCalls_append (a b : List (Event Spec σ)) :
    deletedCalls (a ++ b) = deletedCalls a ++ deletedCalls b :=
  List.filterMap_append _ _ _

@[simp] lemma deletedCalls_cons_ensure (t : Task Spec σ) (b : Bool)
    (rest : List (Event Spec σ)) :
    deletedCalls (.ensureCalled t b :: rest) = deletedCalls rest := rfl

@[simp] lemma deletedCalls_cons_recover (t : Task Spec σ)
    (rest : List (Event Spec σ)) :
    deletedCalls (.recoverTried t :: rest) = deletedCalls rest := rfl

@[simp] lemma deletedCalls_cons_deleted (t : Task Spec σ)
    (rest : List (Event Spec σ)) :
    deletedCalls (.ensureDeletedCalled t :: rest) = t :: deletedCalls rest := rfl

@[simp] lemma deletedCalls_cons_logged (msg : String) (kv : List (String × String))
    (rest : List (Event Spec σ)) :
    deletedCalls ((Event.logged msg kv : Event Spec σ) :: rest)
      = deletedCalls rest := rfl

@[simp] lemma recoverTrieds_nil : recoverTrieds ([] : List (Event Spec σ)) = [] := rfl

@[simp] lemma recoverTrieds_append (a b : List (Event Spec σ)) :
    recoverTrieds (a ++ b) = recoverTrieds a ++ recoverTrieds b :=
  List.filterMap_append _ _ _

@[simp] lemma recoverTrieds_cons_ensure (t : Task Spec σ) (b : Bool)
    (rest : List (Event Spec σ)) :
    recoverTrieds (.ensureCalled t b :: rest) = recoverTrieds rest := rfl

@[simp] lemma recoverTrieds_cons_recover (t : Task Spec σ)
    (rest : List (Event Spec σ)) :
    recoverTrieds (.recoverTried t :: rest) = t :: recoverTrieds rest := rfl

@[simp] lemma recoverTrieds_cons_deleted (t : Task Spec σ)
    (rest : List (Event Spec σ)) :
    recoverTrieds (.ensureDeletedCalled t :: rest) = recoverTrieds rest := rfl

@[simp] lemma recoverTrieds_cons_logged (msg : String) (kv : List (String × String))
    (rest : List (Event Spec σ)) :
    recoverTrieds ((Event.logged msg kv : Event Spec σ) :: rest)
      = recoverTrieds rest := rfl

@[simp] lemma lookupCalls_nil : lookupCalls ([] : List (Event Spec σ)) = [] := rfl

@[simp] lemma lookupCalls_append (a b : List (Event Spec σ)) :
    lookupCalls (a ++ b) = lookupCalls a ++ lookupCalls b :=
  List.filterMap_append _ _ _

@[simp] lemma lookupCalls_cons_ensure_true (t : Task Spec σ)
    (rest : List (Event Spec σ)) :
    lookupCalls (.ensureCalled t true :: rest) = t :: lookupCalls rest := rfl

@[simp] lemma lookupCalls_cons_ensure_false (t : Task Spec σ)
    (rest : List (Event Spec σ)) :
    lookupCalls (.ensureCalled t false :: rest) = lookupCalls rest := rfl

@[simp] lemma lookupCalls_cons_recover (t : Task Spec σ)
    (rest : List (Event Spec σ)) :
    lookupCalls (.recoverTried t :: rest) = lookupCalls rest := rfl

@[simp] lemma lookupCalls_cons_deleted (t : Task Spec σ)
    (rest : List (Event Spec σ)) :
    lookupCalls (.ensureDeletedCalled t :: rest) = lookupCalls rest := rfl

@[simp] lemma lookupCalls_cons_logged (msg : String) (kv : List (String × String))
    (rest : List (Event Spec σ)) :
    lookupCalls ((Event.logged msg kv : Event Spec σ) :: rest)
      = lookupCalls rest := rfl

/-! ### Facts about `tryRecover` -/

/-- With `lookup = false` (the reconcile path), `tryRecover` always
returns `nil`: the lookup branch is the only one that can surface an
error and it is guarded by `lookup`. -/
lemma tryRecover_false_err (e : Ensurer Λ Κ Ν Spec σ) (spec : Spec) (s : σ)
    (tsk : Task Spec σ) :
    (tryRecover e spec s tsk false).2.2 = none := by
  unfold tryRecover
  cases h : (Ensurer.IsTryRecoverEnabled e && (tsk.reference s).isNone) with
  | false => simp [h]
  | true => cases hr : tsk.recover <;> simp [h, hr]

/-- With `lookup = false`, `tryRecover` never invokes any `Ensure`. -/
lemma tryRecover_false_ensureCalls (e : Ensurer Λ Κ Ν Spec σ) (spec : Spec)
    (s : σ) (tsk : Task Spec σ) :
    ensureCalls (tryRecover e spec s tsk false).2.1 = [] := by
  unfold tryRecover
  cases h : (Ensurer.IsTryRecoverEnabled e && (tsk.reference s).isNone) with
  | false => simp [h]
  | true => cases hr : tsk.recover <;> simp [h, hr]

/-- A recovery branch is entered only when try-recover is enabled and the
task's state slot holds no reference. -/
lemma tryRecover_tried_guard (e : Ensurer Λ Κ Ν Spec σ) (spec : Spec) (s : σ)
    (tsk t : Task Spec σ) (lookup : Bool)
    (h : Event.recoverTried t ∈ (tryRecover e spec s tsk lookup).2.1) :
    e.IsTryRecoverEnabled = true ∧ tsk.reference s = none := by
  unfold tryRecover at h
  cases hg : (Ensurer.IsTryRecoverEnabled e && (tsk.reference s).isNone) with
  | false =>
      rw [hg] at h
      simp at h
  | true =>
      refine ⟨rfl, ?_⟩
      have := Bool.and_elim_right hg
      exact Option.isNone_iff_eq_none.mp this

/-- When try-recover is enabled and the slot holds no reference, the
produced events are exactly: one `recoverTried` for a recoverable task,
one lookup `Ensure` call for a non-recoverable task with `lookup` set,
nothing otherwise. -/
lemma tryRecover_eq_of_noRef (e : Ensurer Λ Κ Ν Spec σ) (spec : Spec) (s : σ)
    (tsk : Task Spec σ) (lookup : Bool) (h : tsk.reference s = none) :
    tryRecover e spec s tsk lookup =
      match tsk.recover, lookup with
      | .recoverable f, _ => (f spec s, [.recoverTried tsk], none)
      | .recoverableAdvanced f, _ => (f spec s, [.recoverTried tsk], none)
      | .notRecoverable, true =>
          ((tsk.ensure spec s).1, [.ensureCalled tsk true],
            exceptErr (tsk.ensure spec s).2)
      | .notRecoverable, false => (s, [], none) := by
  unfold tryRecover
  simp [Ensurer.IsTryRecoverEnabled, h]

/-- When the slot already holds a reference, `tryRecover` does nothing. -/
lemma tryRecover_eq_of_ref (e : Ensurer Λ Κ Ν Spec σ) (spec : Spec) (s : σ)
    (tsk : Task Spec σ) (lookup : Bool) (h : (tsk.reference s).isSome) :
    tryRecover e spec s tsk lookup = (s, [], none) := by
  unfold tryRecover
  have hn : (tsk.reference s).isNone = false := by
    cases hr : tsk.reference s with
    | none => rw [hr] at h; simp at h
    | some r => rfl
  simp [hn]

/-! ### Checkpoint-state fold lemmas -/

@[simp] lemma afterTasks_nil (e : Ensurer Λ Κ Ν Spec σ) (spec : Spec) (s : σ) :
    afterTasks e spec [] s = s := rfl

@[simp] lemma afterTasks_cons (e : Ensurer Λ Κ Ν Spec σ) (spec : Spec)
    (t : Task Spec σ) (ts : List (Task Spec σ)) (s : σ) :
    afterTasks e spec (t :: ts) s = afterTasks e spec ts (afterTask e spec t s) := rfl

lemma afterTasks_append (e : Ensurer Λ Κ Ν Spec σ) (spec : Spec)
    (l1 l2 : List (Task Spec σ)) (s : σ) :
    afterTasks e spec (l1 ++ l2) s = afterTasks e spec l2 (afterTasks e spec l1 s) :=
  List.foldl_append _ _ _ _

@[simp] lemma preAfter_nil (e : Ensurer Λ Κ Ν Spec σ) (spec : Spec) (s : σ) :
    preAfter e spec [] s = s := rfl

@[simp] lemma preAfter_cons (e : Ensurer Λ Κ Ν Spec σ) (spec : Spec)
    (t : Task Spec σ) (ts : List (Task Spec σ)) (s : σ) :
    preAfter e spec (t :: ts) s = preAfter e spec ts (preStep e spec t s) := rfl

lemma preAfter_append (e : Ensurer Λ Κ Ν Spec σ) (spec : Spec)
    (l1 l2 : List (Task Spec σ)) (s : σ) :
    preAfter e spec (l1 ++ l2) s = preAfter e spec l2 (preAfter e spec l1 s) :=
  List.foldl_append _ _ _ _

@[simp] lemma delAfter_nil (s : σ) : delAfter ([] : List (Task Spec σ)) s = s := rfl

@[simp] lemma delAfter_cons (t : Task Spec σ) (ts : List (Task Spec σ)) (s : σ) :
    delAfter (t :: ts) s = delAfter ts (delStep t s) := rfl

lemma delAfter_append (l1 l2 : List (Task Spec σ)) (s : σ) :
    delAfter (l1 ++ l2) s = delAfter l2 (delAfter l1 s) :=
  List.foldl_append _ _ _ _

/-- Indexing into a `take` below the cut returns the original element. -/
lemma get?_take_lt {α : Type} :
    ∀ (l : List α) (n m : Nat), m < n → (l.take n).get? m = l.get? m
  | [], _, _, _ => by simp
  | _ :: _, 0, _, h => by omega
  | x :: xs, n + 1, 0, _ => rfl
  | x :: xs, n + 1, m + 1, h => by
      simp only [List.take_succ_cons, List.get?]
      exact get?_take_lt xs n m (Nat.lt_of_succ_lt_succ h)

/-- Splitting a list at a position known to hold an element. -/
lemma list_get_split {α : Type} :
    ∀ (l : List α) (k : Nat) (a : α), l.get? k = some a →
      l = l.take k ++ a :: l.drop (k + 1)
  | [], k, a, h => by simp at h
  | x :: xs, 0, a, h => by
      simp only [List.get?] at h
      injection h with h
      simp [h]
  | x :: xs, k + 1, a, h => by
      simp only [List.get?] at h
      have := list_get_split xs k a h
      simp only [List.take_succ_cons, List.drop_succ_cons, List.cons_append]
      exact congrArg (x :: ·) this

/-! ### Unfolding lemmas for the reconcile loop -/

/-- One reconcile step whose `Ensure` fails: the loop stops, returning the
state after the failing call, the events so far, and the wrapped error. -/
lemma ensureLoop_cons_err (e : Ensurer Λ Κ Ν Spec σ) (spec : Spec)
    (tsk : Task Spec σ) (rest : List (Task Spec σ)) (s : σ) (err : String)
    (h : (tsk.ensure spec (tryRecover e spec s tsk false).1).2 = .error err) :
    ensureLoop e spec (tsk :: rest) s =
      (afterTask e spec tsk s,
        (tryRecover e spec s tsk false).2.1 ++ [.ensureCalled tsk false],
        some (wrapf err (tsk.label ++ " failed"))) := by
  simp only [ensureLoop, afterTask, h]

/-- One reconcile step whose `Ensure` succeeds: the loop logs the action
and continues with the remaining tasks from the post-`Ensure` state. -/
lemma ensureLoop_cons_ok (e : Ensurer Λ Κ Ν Spec σ) (spec : Spec)
    (tsk : Task Spec σ) (rest : List (Task Spec σ)) (s : σ) (a : String)
    (h : (tsk.ensure spec (tryRecover e spec s tsk false).1).2 = .ok a) :
    ensureLoop e spec (tsk :: rest) s =
      ((ensureLoop e spec rest (afterTask e spec tsk s)).1,
        (tryRecover e spec s tsk false).2.1 ++
          [.ensureCalled tsk false,
           .logged (tsk.label ++ " " ++ a)
             (logKeysAndVals spec tsk (afterTask e spec tsk s))] ++
          (ensureLoop e spec rest (afterTask e spec tsk s)).2.1,
        (ensureLoop e spec rest (afterTask e spec tsk s)).2.2) := by
  simp only [ensureLoop, afterTask, h]

/-- Running the reconcile loop over `l1 ++ l2` when `l1` completes without
error: the run continues into `l2` from `l1`'s final state and the traces
concatenate. -/
lemma ensureLoop_append_ok (e : Ensurer Λ Κ Ν Spec σ) (spec : Spec)
    (l1 l2 : List (Task Spec σ)) :
    ∀ (s : σ), (ensureLoop e spec l1 s).2.2 = none →
      ensureLoop e spec (l1 ++ l2) s =
        ((ensureLoop e spec l2 (ensureLoop e spec l1 s).1).1,
          (ensureLoop e spec l1 s).2.1 ++
            (ensureLoop e spec l2 (ensureLoop e spec l1 s).1).2.1,
          (ensureLoop e spec l2 (ensureLoop e spec l1 s).1).2.2) := by
  induction l1 with
  | nil => intro s _; simp [ensureLoop]
  | cons t l1 ih =>
      intro s h
      cases hr : (t.ensure spec (tryRecover e spec s t false).1).2 with
      | error err =>
          rw [ensureLoop_cons_err e spec t l1 s err hr] at h
          simp at h
      | ok a =>
          rw [ensureLoop_cons_ok e spec t l1 s a hr] at h ⊢
          rw [List.cons_append, ensureLoop_cons_ok e spec t (l1 ++ l2) s a hr]
          rw [ih (afterTask e spec t s) h]
          simp

/-- A successful reconcile loop ends in the fold of the per-task steps. -/
lemma ensureLoop_ok_state (e : Ensurer Λ Κ Ν Spec σ) (spec : Spec) :
    ∀ (ts : List (Task Spec σ)) (s : σ), (ensureLoop e spec ts s).2.2 = none →
      (ensureLoop e spec ts s).1 = afterTasks e spec ts s := by
  intro ts
  induction ts with
  | nil => intro s _; rfl
  | cons t ts ih =>
      intro s h
      cases hr : (t.ensure spec (tryRecover e spec s t false).1).2 with
      | error err =>
          rw [ensureLoop_cons_err e spec t ts s err hr] at h
          simp at h
      | ok a =>
          rw [ensureLoop_cons_ok e spec t ts s a hr] at h ⊢
          rw [afterTasks_cons]
          exact ih (afterTask e spec t s) h

/-- A successful reconcile loop invokes `Ensure` for exactly the tasks of
its list, in list order. -/
lemma ensureLoop_ok_calls (e : Ensurer Λ Κ Ν Spec σ) (spec : Spec) :
    ∀ (ts : List (Task Spec σ)) (s : σ), (ensureLoop e spec ts s).2.2 = none →
      ensureCalls (ensureLoop e spec ts s).2.1 = ts := by
  intro ts
  induction ts with
  | nil => intro s _; rfl
  | cons t ts ih =>
      intro s h
      cases hr : (t.ensure spec (tryRecover e spec s t false).1).2 with
      | error err =>
          rw [ensureLoop_cons_err e spec t ts s err hr] at h
          simp at h
      | ok a =>
          rw [ensureLoop_cons_ok e spec t ts s a hr] at h ⊢
          simp [tryRecover_false_ensureCalls, ih (afterTask e spec t s) h]

/-- In a successful reconcile loop, every task's `Ensure`, evaluated at
its checkpoint state, returned without error. -/
lemma ensureLoop_ok_each (e : Ensurer Λ Κ Ν Spec σ) (spec : Spec) :
    ∀ (ts : List (Task Spec σ)) (s : σ), (ensureLoop e spec ts s).2.2 = none →
      ∀ (k : Nat) (tk : Task Spec σ), ts.get? k = some tk →
        ∃ a, (tk.ensure spec
            (tryRecover e spec (afterTasks e spec (ts.take k) s) tk false).1).2
          = .ok a := by
  intro ts
  induction ts with
  | nil => intro s _ k tk hk; simp at hk
  | cons t ts ih =>
      intro s h k tk hk
      cases hr : (t.ensure spec (tryRecover e spec s t false).1).2 with
      | error err =>
          rw [ensureLoop_cons_err e spec t ts s err hr] at h
          simp at h
      | ok a =>
          rw [ensureLoop_cons_ok e spec t ts s a hr] at h
          cases k with
          | zero =>
              simp only [List.get?] at hk
              injection hk with hk
              subst hk
              exact ⟨a, by simpa using hr⟩
          | succ k =>
              simp only [List.get?] at hk
              have := ih (afterTask e spec t s) h k tk hk
              simpa [List.take_succ_cons] using this

/-- A failing reconcile run: there is a first failing task `tk` at
position `k`; the prefix before it succeeded, the returned error is the
failing `Ensure`'s error wrapped with `tk`'s label, exactly the first
`k + 1` tasks had their `Ensure` invoked (in order), and the final state
is the accumulated state after `tk`'s failing call — no rollback. -/
lemma ensureLoop_err (e : Ensurer Λ Κ Ν Spec σ) (spec : Spec) :
    ∀ (ts : List (Task Spec σ)) (s : σ) (err : String),
      (ensureLoop e spec ts s).2.2 = some err →
      ∃ (k : Nat) (tk : Task Spec σ) (err0 : String),
        ts.get? k = some tk ∧
        (ensureLoop e spec (ts.take k) s).2.2 = none ∧
        (tk.ensure spec
            (tryRecover e spec (afterTasks e spec (ts.take k) s) tk false).1).2
          = .error err0 ∧
        err = wrapf err0 (tk.label ++ " failed") ∧
        ensureCalls (ensureLoop e spec ts s).2.1 = ts.take (k + 1) ∧
        (ensureLoop e spec ts s).1 = afterTasks e spec (ts.take (k + 1)) s := by
  intro ts
  induction ts with
  | nil => intro s err h; simp [ensureLoop] at h
  | cons t ts ih =>
      intro s err h
      cases hr : (t.ensure spec (tryRecover e spec s t false).1).2 with
      | error err0 =>
          rw [ensureLoop_cons_err e spec t ts s err0 hr] at h ⊢
          refine ⟨0, t, err0, rfl, by simp [ensureLoop], by simpa using hr, ?_, ?_, ?_⟩
          · simpa using h.symm
          · simp [tryRecover_false_ensureCalls]
          · simp
      | ok a =>
          rw [ensureLoop_cons_ok e spec t ts s a hr] at h ⊢
          obtain ⟨k, tk, err0, hk, hpre, hfail, herr, hcalls, hstate⟩ :=
            ih (afterTask e spec t s) err h
          refine ⟨k + 1, tk, err0, by simpa using hk, ?_, ?_, herr, ?_, ?_⟩
          · rw [List.take_succ_cons,
              ensureLoop_cons_ok e spec t (ts.take k) s a hr]
            exact hpre
          · simpa [List.take_succ_cons] using hfail
          · simp [tryRecover_false_ensureCalls, List.take_succ_cons, hcalls]
          · simpa [List.take_succ_cons] using hstate

/-! ### Unfolding lemmas for the delete pass -/

/-- One delete step whose `EnsureDeleted` fails: the pass stops with the
wrapped error. -/
lemma deleteLoop_cons_err (tsk : Task Spec σ) (rest : List (Task Spec σ))
    (s : σ) (err : String) (h : (tsk.ensureDeleted s).2 = .error err) :
    deleteLoop (tsk :: rest) s =
      (delStep tsk s, [.ensureDeletedCalled tsk],
        some (wrapf err ("deleting " ++ tsk.label ++ " failed"))) := by
  simp only [deleteLoop, delStep, h]

/-- One delete step whose `EnsureDeleted` succeeds: a deletion log line is
emitted exactly when `deleted = true`, then the pass continues. -/
lemma deleteLoop_cons_ok (tsk : Task Spec σ) (rest : List (Task Spec σ))
    (s : σ) (b : Bool) (h : (tsk.ensureDeleted s).2 = .ok b) :
    deleteLoop (tsk :: rest) s =
      ((deleteLoop rest (delStep tsk s)).1,
        .ensureDeletedCalled tsk ::
          ((if b then [.logged (tsk.label ++ " deleted") []] else []) ++
            (deleteLoop rest (delStep tsk s)).2.1),
        (deleteLoop rest (delStep tsk s)).2.2) := by
  simp only [deleteLoop, delStep, h]

/-- Running the delete pass over `l1 ++ l2` when `l1` completes without
error. -/
lemma deleteLoop_append_ok (l1 l2 : List (Task Spec σ)) :
    ∀ (s : σ), (deleteLoop l1 s).2.2 = none →
      deleteLoop (l1 ++ l2) s =
        ((deleteLoop l2 (deleteLoop l1 s).1).1,
          (deleteLoop l1 s).2.1 ++ (deleteLoop l2 (deleteLoop l1 s).1).2.1,
          (deleteLoop l2 (deleteLoop l1 s).1).2.2) := by
  induction l1 with
  | nil => intro s _; simp [deleteLoop]
  | cons t l1 ih =>
      intro s h
      cases hr : (t.ensureDeleted s).2 with
      | error err =>
          rw [deleteLoop_cons_err t l1 s err hr] at h
          simp at h
      | ok b =>
          rw [deleteLoop_cons_ok t l1 s b hr] at h ⊢
          rw [List.cons_append, deleteLoop_cons_ok t (l1 ++ l2) s b hr]
          rw [ih (delStep t s) h]
          simp

/-- A successful delete pass ends in the fold of the per-task steps. -/
lemma deleteLoop_ok_state :
    ∀ (ts : List (Task Spec σ)) (s : σ), (deleteLoop ts s).2.2 = none →
      (deleteLoop ts s).1 = delAfter ts s := by
  intro ts
  induction ts with
  | nil => intro s _; rfl
  | cons t ts ih =>
      intro s h
      cases hr : (t.ensureDeleted s).2 with
      | error err =>
          rw [deleteLoop_cons_err t ts s err hr] at h
          simp at h
      | ok b =>
          rw [deleteLoop_cons_ok t ts s b hr] at h ⊢
          rw [delAfter_cons]
          exact ih (delStep t s) h

/-- A successful delete pass invokes `EnsureDeleted` for exactly the tasks
of its list, in list order. -/
lemma deleteLoop_ok_calls :
    ∀ (ts : List (Task Spec σ)) (s : σ), (deleteLoop ts s).2.2 = none →
      deletedCalls (deleteLoop ts s).2.1 = ts := by
  intro ts
  induction ts with
  | nil => intro s _; rfl
  | cons t ts ih =>
      intro s h
      cases hr : (t.ensureDeleted s).2 with
      | error err =>
          rw [deleteLoop_cons_err t ts s err hr] at h
          simp at h
      | ok b =>
          rw [deleteLoop_cons_ok t ts s b hr] at h ⊢
          cases b <;> simp [ih (delStep t s) h]

/-- A failing delete pass: a first failing task at position `m`, the
prefix before it succeeded, the error is wrapped with the task's label,
exactly the first `m + 1` tasks had `EnsureDeleted` invoked, and the final
state is the accumulated state after the failing call. -/
lemma deleteLoop_err :
    ∀ (ts : List (Task Spec σ)) (s : σ) (err : String),
      (deleteLoop ts s).2.2 = some err →
      ∃ (m : Nat) (tk : Task Spec σ) (err0 : String),
        ts.get? m = some tk ∧
        (deleteLoop (ts.take m) s).2.2 = none ∧
        (tk.ensureDeleted (delAfter (ts.take m) s)).2 = .error err0 ∧
        err = wrapf err0 ("deleting " ++ tk.label ++ " failed") ∧
        deletedCalls (deleteLoop ts s).2.1 = ts.take (m + 1) ∧
        (deleteLoop ts s).1 = delAfter (ts.take (m + 1)) s := by
  intro ts
  induction ts with
  | nil => intro s err h; simp [deleteLoop] at h
  | cons t ts ih =>
      intro s err h
      cases hr : (t.ensureDeleted s).2 with
      | error err0 =>
          rw [deleteLoop_cons_err t ts s err0 hr] at h ⊢
          refine ⟨0, t, err0, rfl, by simp [deleteLoop], by simpa using hr,
            by simpa using h.symm, by simp, by simp⟩
      | ok b =>
          rw [deleteLoop_cons_ok t ts s b hr] at h ⊢
          obtain ⟨m, tk, err0, hm, hpre, hfail, herr, hcalls, hstate⟩ :=
            ih (delStep t s) err h
          refine ⟨m + 1, tk, err0, by simpa using hm, ?_, ?_, herr, ?_, ?_⟩
          · rw [List.take_succ_cons, deleteLoop_cons_ok t (ts.take m) s b hr]
            exact hpre
          · simpa [List.take_succ_cons] using hfail
          · cases b <;> simp [List.take_succ_cons, hcalls]
          · simpa [List.take_succ_cons] using hstate

/-- The delete pass produces no recovery events: only `EnsureDeleted`
invocations and deletion log lines. -/
lemma deleteLoop_no_recover :
    ∀ (ts : List (Task Spec σ)) (s : σ),
      recoverTrieds (deleteLoop ts s).2.1 = [] ∧
      lookupCalls (deleteLoop ts s).2.1 = [] ∧
      ensureCalls (deleteLoop ts s).2.1 = [] := by
  intro ts
  induction ts with
  | nil => intro s; simp [deleteLoop]
  | cons t ts ih =>
      intro s
      cases hr : (t.ensureDeleted s).2 with
      | error err => rw [deleteLoop_cons_err t ts s err hr]; simp
      | ok b =>
          rw [deleteLoop_cons_ok t ts s b hr]
          obtain ⟨h1, h2, h3⟩ := ih (delStep t s)
          cases b <;> simp [h1, h2, h3]

/-- Decomposition of the delete pass at the step of the task at position
`m`, given that all earlier steps succeeded and the `m`-th `EnsureDeleted`
returned `(b, nil)`: the trace shows the prefix trace, then the `m`-th
invocation, then a deletion log line exactly when `b = true`, then the
trace of the remaining tasks; state and error continue from the rest. -/
lemma deleteLoop_step_decomp (ts : List (Task Spec σ)) (s : σ) (m : Nat)
    (tk : Task Spec σ) (b : Bool)
    (h1 : ts.get? m = some tk)
    (h2 : (deleteLoop (ts.take m) s).2.2 = none)
    (h3 : (tk.ensureDeleted (delAfter (ts.take m) s)).2 = .ok b) :
    deleteLoop ts s =
      ((deleteLoop (ts.drop (m + 1)) (delStep tk (delAfter (ts.take m) s))).1,
        (deleteLoop (ts.take m) s).2.1 ++
          (.ensureDeletedCalled tk ::
            ((if b then [.logged (tk.label ++ " deleted") []] else []) ++
              (deleteLoop (ts.drop (m + 1))
                (delStep tk (delAfter (ts.take m) s))).2.1)),
        (deleteLoop (ts.drop (m + 1))
          (delStep tk (delAfter (ts.take m) s))).2.2) := by
  have hsplit := list_get_split ts m tk h1
  have hstate := deleteLoop_ok_state (ts.take m) s h2
  conv_lhs => rw [hsplit]
  rw [deleteLoop_append_ok (ts.take m) (tk :: ts.drop (m + 1)) s h2, hstate,
    deleteLoop_cons_ok tk (ts.drop (m + 1)) (delAfter (ts.take m) s) b h3]

/-! ### Lemmas for the delete-recovery pre-pass -/

/-- One pre-pass step, unfolded. -/
lemma recoverPrePass_cons (e : Ensurer Λ Κ Ν Spec σ) (spec : Spec)
    (tsk : Task Spec σ) (rest : List (Task Spec σ)) (s : σ) :
    recoverPrePass e spec (tsk :: rest) s =
      ((recoverPrePass e spec rest (preStep e spec tsk s)).1,
        (tryRecover e spec s tsk true).2.1 ++
          (match (tryRecover e spec s tsk true).2.2 with
           | some _ => [.logged "try recover failed" (recoverFailKV spec tsk)]
           | none => []) ++
          (recoverPrePass e spec rest (preStep e spec tsk s)).2) := by
  simp only [recoverPrePass, preStep]

/-- The pre-pass always processes its whole list: its final state is the
fold of the per-task `tryRecover` steps.  By construction it returns no
error at all. -/
lemma recoverPrePass_state (e : Ensurer Λ Κ Ν Spec σ) (spec : Spec) :
    ∀ (ts : List (Task Spec σ)) (s : σ),
      (recoverPrePass e spec ts s).1 = preAfter e spec ts s := by
  intro ts
  induction ts with
  | nil => intro s; rfl
  | cons t ts ih =>
      intro s
      rw [recoverPrePass_cons, preAfter_cons]
      exact ih (preStep e spec t s)

/-- The pre-pass over `l1 ++ l2` decomposes into the pre-pass over `l1`
followed by the pre-pass over `l2` from the stepped state. -/
lemma recoverPrePass_append (e : Ensurer Λ Κ Ν Spec σ) (spec : Spec)
    (l1 l2 : List (Task Spec σ)) :
    ∀ (s : σ),
      recoverPrePass e spec (l1 ++ l2) s =
        ((recoverPrePass e spec l2 (preAfter e spec l1 s)).1,
          (recoverPrePass e spec l1 s).2 ++
            (recoverPrePass e spec l2 (preAfter e spec l1 s)).2) := by
  induction l1 with
  | nil => intro s; simp [recoverPrePass]
  | cons t l1 ih =>
      intro s
      rw [List.cons_append, recoverPrePass_cons, recoverPrePass_cons, preAfter_cons,
        ih (preStep e spec t s)]
      simp

/-- Decomposition of the pre-pass at the task at position `k`: its
`tryRecover` runs at the accumulated checkpoint state, a
`"try recover failed"` log line follows exactly when that `tryRecover`
returned an error, and the pre-pass continues with the remaining tasks. -/
lemma recoverPrePass_decomp (e : Ensurer Λ Κ Ν Spec σ) (spec : Spec)
    (ts : List (Task Spec σ)) (s : σ) (k : Nat) (tk : Task Spec σ)
    (h : ts.get? k = some tk) :
    (recoverPrePass e spec ts s).2 =
      (recoverPrePass e spec (ts.take k) s).2 ++
        ((tryRecover e spec (preAfter e spec (ts.take k) s) tk true).2.1 ++
          (match (tryRecover e spec (preAfter e spec (ts.take k) s) tk true).2.2 with
           | some _ => [.logged "try recover failed" (recoverFailKV spec tk)]
           | none => []) ++
          (recoverPrePass e spec (ts.drop (k + 1))
            (preStep e spec tk (preAfter e spec (ts.take k) s))).2) := by
  have hsplit := list_get_split ts k tk h
  conv_lhs => rw [hsplit]
  rw [recoverPrePass_append e spec (ts.take k) (tk :: ts.drop (k + 1)) s,
    recoverPrePass_cons]

/-- If every task in `ts` preserves `tj`'s stored reference across its
reconcile step, so does the whole fold. -/
lemma reference_preserved_afterTasks (e : Ensurer Λ Κ Ν Spec σ) (spec : Spec)
    (tj : Task Spec σ) :
    ∀ (ts : List (Task Spec σ)),
      (∀ ti ∈ ts, ∀ s : σ, tj.reference (afterTask e spec ti s) = tj.reference s) →
      ∀ s : σ, tj.reference (afterTasks e spec ts s) = tj.reference s := by
  intro ts
  induction ts with
  | nil => intro _ s; rfl
  | cons t ts ih =>
      intro h s
      rw [afterTasks_cons, ih (fun ti hi => h ti (List.mem_cons_of_mem t hi)),
        h t (List.mem_cons_self t ts)]

/-! ### Concrete instances used by the witnesses -/

/-- A reference literal. -/
def wRef (s : String) : Reference := ⟨s⟩

/-- Witness state: one optional reference per task slot. -/
abbrev WS : Type := List (Option Reference)

/-- Read slot `i`. -/
def slot (i : Nat) (s : WS) : Option Reference := s.getD i none

/-- Write slot `i`. -/
def putSlot (i : Nat) (v : Option Reference) (s : WS) : WS := s.set i v

/-- A well-behaved non-recoverable task owning slot `i`: `ensure` records
a reference into its slot and reports `"created"`; `ensureDeleted` clears
the slot and reports whether it was occupied. -/
def wTask (i : Nat) (lab : String) : Task Unit WS where
  label := lab
  nameToLog := fun _ => none
  reference := slot i
  ensure := fun _ s => (putSlot i (some (wRef ("id" ++ lab))) s, .ok "created")
  ensureDeleted := fun s => (putSlot i none s, .ok (slot i s).isSome)
  recover := .notRecoverable

/-- A task owning slot `i` whose `Ensure` always fails with `"boom"`. -/
def wFailTask (i : Nat) (lab : String) : Task Unit WS where
  label := lab
  nameToLog := fun _ => none
  reference := slot i
  ensure := fun _ s => (s, .error "boom")
  ensureDeleted := fun s => (putSlot i none s, .ok (slot i s).isSome)
  recover := .notRecoverable

/-- A witness ensurer over a given task list (handles are trivial). -/
def wEnsurer (ts : List (Task Unit WS)) : Ensurer Unit Unit Unit Unit WS where
  logger := ()
  connector := ()
  nsxtClient := ()
  tasks := ts

/-- Three tasks, the middle one failing. -/
def wE1 : Ensurer Unit Unit Unit Unit WS :=
  wEnsurer [wTask 0 "T0", wFailTask 1 "T1", wTask 2 "T2"]

/-- The empty initial state for three slots. -/
def wS0 : WS := [none, none, none]

/-! ### Claim theorems -/

/-- C1: if some task's `Ensure` fails during `EnsureInfrastructure`, the
run returns that error wrapped with the task's label, the tasks whose
`Ensure` was invoked are exactly the failing task and its predecessors in
list order (no later task runs), and the final state is the accumulated
state after the failing call — no rollback; in particular, whenever the
intervening tasks' steps preserve an earlier task's stored reference (the
tasks-own-their-slots contract), that reference is exactly as it was
after its own successful `Ensure`. -/
theorem ensureInfrastructure_abort_on_error (e : Ensurer Λ Κ Ν Spec σ)
    (spec : Spec) (s0 : σ) (err : String)
    (hrun : (EnsureInfrastructure e spec s0).2.2.2 = some err) :
    ∃ (k : Nat) (tk : Task Spec σ) (err0 : String),
      e.tasks.get? k = some tk ∧
      (ensureLoop e spec (e.tasks.take k) s0).2.2 = none ∧
      (tk.ensure spec
          (tryRecover e spec (afterTasks e spec (e.tasks.take k) s0) tk false).1).2
        = .error err0 ∧
      err = wrapf err0 (tk.label ++ " failed") ∧
      ensureCalls (EnsureInfrastructure e spec s0).2.2.1 = e.tasks.take (k + 1) ∧
      (EnsureInfrastructure e spec s0).2.1
        = afterTasks e spec (e.tasks.take (k + 1)) s0 ∧
      (∀ (j : Nat) (tj : Task Spec σ), j < k → e.tasks.get? j = some tj →
        (∀ ti ∈ (e.tasks.take (k + 1)).drop (j + 1), ∀ s : σ,
          tj.reference (afterTask e spec ti s) = tj.reference s) →
        tj.reference (EnsureInfrastructure e spec s0).2.1
          = tj.reference (afterTasks e spec (e.tasks.take (j + 1)) s0)) := by
  simp only [EnsureInfrastructure] at hrun ⊢
  obtain ⟨k, tk, err0, hk, hpre, hfail, herr, hcalls, hstate⟩ :=
    ensureLoop_err e spec e.tasks s0 err hrun
  refine ⟨k, tk, err0, hk, hpre, hfail, herr, hcalls, hstate, ?_⟩
  intro j tj hjk hj hframe
  rw [hstate]
  have hsplit :
      e.tasks.take (k + 1)
        = e.tasks.take (j + 1) ++ (e.tasks.take (k + 1)).drop (j + 1) := by
    conv_lhs => rw [← List.take_append_drop (j + 1) (e.tasks.take (k + 1))]
    rw [List.take_take, Nat.min_eq_left (Nat.succ_le_succ (Nat.le_of_lt hjk))]
  rw [hsplit, afterTasks_append]
  exact reference_preserved_afterTasks e spec tj _ hframe _

/-- Witness for C1 at a concrete three-task run whose middle task fails. -/
theorem ensureInfrastructure_abort_on_error_witness :
    (EnsureInfrastructure wE1 () wS0).2.2.2 = some "T1 failed: boom" ∧
    (∃ (k : Nat) (tk : Task Unit WS) (err0 : String),
      wE1.tasks.get? k = some tk ∧
      (ensureLoop wE1 () (wE1.tasks.take k) wS0).2.2 = none ∧
      (tk.ensure ()
          (tryRecover wE1 () (afterTasks wE1 () (wE1.tasks.take k) wS0) tk false).1).2
        = .error err0 ∧
      "T1 failed: boom" = wrapf err0 (tk.label ++ " failed") ∧
      ensureCalls (EnsureInfrastructure wE1 () wS0).2.2.1 = wE1.tasks.take (k + 1) ∧
      (EnsureInfrastructure wE1 () wS0).2.1
        = afterTasks wE1 () (wE1.tasks.take (k + 1)) wS0 ∧
      (∀ (j : Nat) (tj : Task Unit WS), j < k → wE1.tasks.get? j = some tj →
        (∀ ti ∈ (wE1.tasks.take (k + 1)).drop (j + 1), ∀ s : WS,
          tj.reference (afterTask wE1 () ti s) = tj.reference s) →
        tj.reference (EnsureInfrastructure wE1 () wS0).2.1
          = tj.reference (afterTasks wE1 () (wE1.tasks.take (j + 1)) wS0))) :=
  ⟨by decide, ensureInfrastructure_abort_on_error wE1 () wS0 "T1 failed: boom"
    (by decide)⟩

/-- `tryRecover` never invokes `EnsureDeleted`. -/
lemma tryRecover_deletedCalls (e : Ensurer Λ Κ Ν Spec σ) (spec : Spec) (s : σ)
    (tsk : Task Spec σ) (lookup : Bool) :
    deletedCalls (tryRecover e spec s tsk lookup).2.1 = [] := by
  unfold tryRecover
  cases h : (Ensurer.IsTryRecoverEnabled e && (tsk.reference s).isNone) with
  | false => simp [h]
  | true => cases hr : tsk.recover <;> cases lookup <;> simp [h, hr]

/-- The delete-recovery pre-pass never invokes `EnsureDeleted`. -/
lemma recoverPrePass_deletedCalls (e : Ensurer Λ Κ Ν Spec σ) (spec : Spec) :
    ∀ (ts : List (Task Spec σ)) (s : σ),
      deletedCalls (recoverPrePass e spec ts s).2 = [] := by
  intro ts
  induction ts with
  | nil => intro s; rfl
  | cons t ts ih =>
      intro s
      rw [recoverPrePass_cons]
      cases hr : (tryRecover e spec s t true).2.2 <;>
        simp [hr, tryRecover_deletedCalls, ih (preStep e spec t s)]

/-- Whether present or absent, the optional pre-pass never invokes
`EnsureDeleted`. -/
lemma prePass_deletedCalls (e : Ensurer Λ Κ Ν Spec σ) (specOpt : Option Spec)
    (s : σ) : deletedCalls (prePass e specOpt s).2 = [] := by
  cases specOpt with
  | none => rfl
  | some spec => exact recoverPrePass_deletedCalls e spec e.tasks s

/-- C2: ordering.  A reconcile run invokes `Ensure` on exactly a prefix of
the task list, in list order, and every task before the last invoked one
returned successfully — so a later task's `Ensure` never starts before an
earlier task's `Ensure` has returned successfully.  A delete run invokes
`EnsureDeleted` on exactly a prefix of the reversed task list, in reverse
list order — so an earlier task's `EnsureDeleted` never starts before a
later task's has returned. -/
theorem task_call_ordering (e : Ensurer Λ Κ Ν Spec σ) (spec : Spec)
    (specOpt : Option Spec) (s0 s1 : σ) :
    (∃ m, m ≤ e.tasks.length ∧
      ensureCalls (EnsureInfrastructure e spec s0).2.2.1 = e.tasks.take m ∧
      ∀ (j : Nat) (tj : Task Spec σ), j + 1 < m → e.tasks.get? j = some tj →
        ∃ a, (tj.ensure spec
            (tryRecover e spec (afterTasks e spec (e.tasks.take j) s0) tj false).1).2
          = .ok a) ∧
    (∃ m, m ≤ e.tasks.length ∧
      deletedCalls (EnsureInfrastructureDeleted e specOpt s1).2.2.1
        = e.tasks.reverse.take m) := by
  constructor
  · simp only [EnsureInfrastructure]
    cases hres : (ensureLoop e spec e.tasks s0).2.2 with
    | none =>
        refine ⟨e.tasks.length, le_refl _, ?_, ?_⟩
        · rw [ensureLoop_ok_calls e spec e.tasks s0 hres, List.take_length]
        · intro j tj hj hget
          exact ensureLoop_ok_each e spec e.tasks s0 hres j tj hget
    | some err =>
        obtain ⟨k, tk, err0, hk, hpre, _hfail, _herr, hcalls, _hstate⟩ :=
          ensureLoop_err e spec e.tasks s0 err hres
        have hklen : k < e.tasks.length := by
          obtain ⟨h, -⟩ := List.get?_eq_some.mp hk
          exact h
        refine ⟨k + 1, hklen, hcalls, ?_⟩
        intro j tj hj hget
        have hjk : j < k := Nat.lt_of_succ_lt_succ hj
        have hget' : (e.tasks.take k).get? j = some tj := by
          rw [get?_take_lt e.tasks k j hjk]
          exact hget
        have := ensureLoop_ok_each e spec (e.tasks.take k) s0 hpre j tj hget'
        rwa [List.take_take, Nat.min_eq_left (Nat.le_of_lt hjk)] at this
  · simp only [EnsureInfrastructureDeleted]
    cases hres : (deleteLoop e.tasks.reverse (prePass e specOpt s1).1).2.2 with
    | none =>
        refine ⟨e.tasks.length, le_refl _, ?_⟩
        simp only [deletedCalls_append, prePass_deletedCalls, List.nil_append]
        rw [deleteLoop_ok_calls _ _ hres]
        rw [← List.length_reverse, List.take_length]
    | some err =>
        obtain ⟨m, tk, err0, hm, _hpre, _hfail, _herr, hcalls, _hstate⟩ :=
          deleteLoop_err e.tasks.reverse (prePass e specOpt s1).1 err hres
        have hmlen : m < e.tasks.reverse.length := by
          obtain ⟨h, -⟩ := List.get?_eq_some.mp hm
          exact h
        rw [List.length_reverse] at hmlen
        refine ⟨m + 1, hmlen, ?_⟩
        simp only [deletedCalls_append, prePass_deletedCalls, List.nil_append]
        exact hcalls

/-- Witness for C2 at a concrete run. -/
theorem task_call_ordering_witness :
    (∃ m, m ≤ wE1.tasks.length ∧
      ensureCalls (EnsureInfrastructure wE1 () wS0).2.2.1 = wE1.tasks.take m ∧
      ∀ (j : Nat) (tj : Task Unit WS), j + 1 < m → wE1.tasks.get? j = some tj →
        ∃ a, (tj.ensure ()
            (tryRecover wE1 () (afterTasks wE1 () (wE1.tasks.take j) wS0) tj false).1).2
          = .ok a) ∧
    (∃ m, m ≤ wE1.tasks.length ∧
      deletedCalls (EnsureInfrastructureDeleted wE1 none wS0).2.2.1
        = wE1.tasks.reverse.take m) :=
  task_call_ordering wE1 () none wS0 wS0

/-- C3: the delete pass calls `EnsureDeleted` for every task in exact
reverse list order, unconditionally.  If no call fails, every task is
visited; on the first failing call the pass aborts immediately with the
error wrapped with that task's label, the tasks visited being exactly the
reverse-order prefix up to the failure; and each successful step's trace
shows the invocation followed by a deletion log line exactly when
`deleted = true` (in particular, a `(false, nil)` no-op emits no log). -/
theorem deletePass_reverse_abort_log (e : Ensurer Λ Κ Ν Spec σ)
    (specOpt : Option Spec) (s0 : σ) :
    ((EnsureInfrastructureDeleted e specOpt s0).2.2.2 = none →
      deletedCalls (EnsureInfrastructureDeleted e specOpt s0).2.2.1
        = e.tasks.reverse) ∧
    (∀ err, (EnsureInfrastructureDeleted e specOpt s0).2.2.2 = some err →
      ∃ (m : Nat) (tk : Task Spec σ) (err0 : String),
        e.tasks.reverse.get? m = some tk ∧
        (deleteLoop (e.tasks.reverse.take m) (prePass e specOpt s0).1).2.2 = none ∧
        (tk.ensureDeleted
            (delAfter (e.tasks.reverse.take m) (prePass e specOpt s0).1)).2
          = .error err0 ∧
        err = wrapf err0 ("deleting " ++ tk.label ++ " failed") ∧
        deletedCalls (EnsureInfrastructureDeleted e specOpt s0).2.2.1
          = e.tasks.reverse.take (m + 1)) ∧
    (∀ (m : Nat) (tk : Task Spec σ) (b : Bool),
      e.tasks.reverse.get? m = some tk →
      (deleteLoop (e.tasks.reverse.take m) (prePass e specOpt s0).1).2.2 = none →
      (tk.ensureDeleted
          (delAfter (e.tasks.reverse.take m) (prePass e specOpt s0).1)).2 = .ok b →
      (EnsureInfrastructureDeleted e specOpt s0).2.2.1 =
        (prePass e specOpt s0).2 ++
          ((deleteLoop (e.tasks.reverse.take m) (prePass e specOpt s0).1).2.1 ++
            (.ensureDeletedCalled tk ::
              ((if b then [.logged (tk.label ++ " deleted") []] else []) ++
                (deleteLoop (e.tasks.reverse.drop (m + 1))
                  (delStep tk
                    (delAfter (e.tasks.reverse.take m)
                      (prePass e specOpt s0).1))).2.1)))) := by
  refine ⟨?_, ?_, ?_⟩
  · intro h
    simp only [EnsureInfrastructureDeleted] at h ⊢
    simp only [deletedCalls_append, prePass_deletedCalls, List.nil_append]
    rw [deleteLoop_ok_calls _ _ h]
  · intro err h
    simp only [EnsureInfrastructureDeleted] at h ⊢
    obtain ⟨m, tk, err0, hm, hpre, hfail, herr, hcalls, _hstate⟩ :=
      deleteLoop_err e.tasks.reverse (prePass e specOpt s0).1 err h
    refine ⟨m, tk, err0, hm, hpre, hfail, herr, ?_⟩
    simp only [deletedCalls_append, prePass_deletedCalls, List.nil_append]
    exact hcalls
  · intro m tk b hm hpre hok
    simp only [EnsureInfrastructureDeleted]
    rw [deleteLoop_step_decomp e.tasks.reverse (prePass e specOpt s0).1 m tk b
      hm hpre hok]

/-- Three well-behaved tasks for the delete witness. -/
def wE3 : Ensurer Unit Unit Unit Unit WS :=
  wEnsurer [wTask 0 "T0", wTask 1 "T1", wTask 2 "T2"]

/-- Partially filled state: only the first and third slots hold
references. -/
def wSD : WS := [some (wRef "a"), none, some (wRef "c")]

/-- Witness for C3: a delete without specification over a partially
filled state succeeds, visiting all three tasks in reverse order, and the
middle task's `(false, nil)` no-op step emits the invocation with no
deletion log line. -/
theorem deletePass_reverse_abort_log_witness :
    ((EnsureInfrastructureDeleted wE3 none wSD).2.2.2 = none ∧
      deletedCalls (EnsureInfrastructureDeleted wE3 none wSD).2.2.1
        = wE3.tasks.reverse) ∧
    (wE3.tasks.reverse.get? 1 = some (wTask 1 "T1") ∧
      (deleteLoop (wE3.tasks.reverse.take 1) (prePass wE3 none wSD).1).2.2 = none ∧
      ((wTask 1 "T1").ensureDeleted
          (delAfter (wE3.tasks.reverse.take 1) (prePass wE3 none wSD).1)).2
        = .ok false ∧
      (EnsureInfrastructureDeleted wE3 none wSD).2.2.1 =
        (prePass wE3 none wSD).2 ++
          ((deleteLoop (wE3.tasks.reverse.take 1) (prePass wE3 none wSD).1).2.1 ++
            (.ensureDeletedCalled (wTask 1 "T1") ::
              ((if false then [.logged ((wTask 1 "T1").label ++ " deleted") []]
                else []) ++
                (deleteLoop (wE3.tasks.reverse.drop 2)
                  (delStep (wTask 1 "T1")
                    (delAfter (wE3.tasks.reverse.take 1)
                      (prePass wE3 none wSD).1))).2.1)))) :=
  ⟨⟨by decide, (deletePass_reverse_abort_log wE3 none wSD).1 (by decide)⟩,
    rfl, by decide, by rfl,
    (deletePass_reverse_abort_log wE3 none wSD).2.2 1 (wTask 1 "T1") false rfl
      (by decide) (by rfl)⟩

/-- C4: for a recoverable task whose state slot holds no reference at its
turn, `EnsureInfrastructure` runs the task's recovery (`TryRecover` with
the spec-derived tags) strictly before its `Ensure`.  The last two
hypotheses are the contracts modelled from the spec for code outside the
translated source: `hpopulated` says the recovery populated the reference
(the exactly-one-remote-match case of `TryRecover`), and `hidem` is the
`Ensure` idempotence contract (with a reference present it takes the
no-op/verified path and leaves state unchanged).  Under them, the task's
`Ensure` runs on the recovered state and returns the no-op action without
mutating state — no duplicate creation. -/
theorem recovery_precedes_ensure (e : Ensurer Λ Κ Ν Spec σ) (spec : Spec)
    (s0 : σ) (k : Nat) (tk : Task Spec σ) (f : Spec → σ → σ) (noopA : String)
    (sc : σ)
    (hk : e.tasks.get? k = some tk)
    (hrec : tk.recover = .recoverable f ∨ tk.recover = .recoverableAdvanced f)
    (hsc : sc = afterTasks e spec (e.tasks.take k) s0)
    (hpre : (ensureLoop e spec (e.tasks.take k) s0).2.2 = none)
    (hnoref : tk.reference sc = none)
    (hpopulated : (tk.reference (f spec sc)).isSome)
    (hidem : ∀ s' : σ, (tk.reference s').isSome →
      tk.ensure spec s' = (s', .ok noopA)) :
    tryRecover e spec sc tk false = (f spec sc, [.recoverTried tk], none) ∧
    tk.ensure spec (f spec sc) = (f spec sc, .ok noopA) ∧
    (EnsureInfrastructure e spec s0).2.2.1 =
      (ensureLoop e spec (e.tasks.take k) s0).2.1 ++
        ([.recoverTried tk, .ensureCalled tk false,
          .logged (tk.label ++ " " ++ noopA) (logKeysAndVals spec tk (f spec sc))] ++
          (ensureLoop e spec (e.tasks.drop (k + 1)) (f spec sc)).2.1) := by
  have htr : tryRecover e spec sc tk false = (f spec sc, [.recoverTried tk], none) := by
    rw [tryRecover_eq_of_noRef e spec sc tk false hnoref]
    rcases hrec with h | h <;> rw [h]
  have hens : tk.ensure spec (f spec sc) = (f spec sc, .ok noopA) :=
    hidem _ hpopulated
  refine ⟨htr, hens, ?_⟩
  have hsplit := list_get_split e.tasks k tk hk
  have hafter : afterTask e spec tk sc = f spec sc := by
    rw [afterTask, htr, hens]
  simp only [EnsureInfrastructure]
  conv_lhs => rw [hsplit]
  rw [ensureLoop_append_ok e spec (e.tasks.take k) (tk :: e.tasks.drop (k + 1))
      s0 hpre,
    ensureLoop_ok_state e spec (e.tasks.take k) s0 hpre, ← hsc,
    ensureLoop_cons_ok e spec tk (e.tasks.drop (k + 1)) sc noopA
      (by rw [htr]; exact congrArg Prod.snd hens),
    htr, hafter]
  simp

/-- The recovery function of the witness task: a unique tag match found
remotely, restored into the single state slot. -/
def wRecFn : Unit → Option Reference → Option Reference := fun _ _ => some (wRef "rec")

/-- A recoverable single-slot task honouring the idempotence contract. -/
def rTask : Task Unit (Option Reference) where
  label := "R"
  nameToLog := fun _ => none
  reference := fun s => s
  ensure := fun _ s =>
    match s with
    | some r => (some r, .ok "verified")
    | none => (some (wRef "new"), .ok "created")
  ensureDeleted := fun s => (none, .ok s.isSome)
  recover := .recoverable wRecFn

/-- An ensurer holding just the recoverable witness task. -/
def wE4 : Ensurer Unit Unit Unit Unit (Option Reference) where
  logger := ()
  connector := ()
  nsxtClient := ()
  tasks := [rTask]

/-- Witness for C4: the single recoverable task starts with no reference,
recovery populates it, and its `Ensure` then takes the no-op path. -/
theorem recovery_precedes_ensure_witness :
    (wE4.tasks.get? 0 = some rTask ∧
      (rTask.recover = .recoverable wRecFn ∨
        rTask.recover = .recoverableAdvanced wRecFn) ∧
      (none : Option Reference) = afterTasks wE4 () (wE4.tasks.take 0) none ∧
      (ensureLoop wE4 () (wE4.tasks.take 0) none).2.2 = none ∧
      rTask.reference none = none ∧
      (rTask.reference (wRecFn () none)).isSome = true ∧
      (∀ s' : Option Reference, (rTask.reference s').isSome →
        rTask.ensure () s' = (s', .ok "verified"))) ∧
    (tryRecover wE4 () none rTask false
        = (wRecFn () none, [.recoverTried rTask], none) ∧
      rTask.ensure () (wRecFn () none) = (wRecFn () none, .ok "verified") ∧
      (EnsureInfrastructure wE4 () none).2.2.1 =
        (ensureLoop wE4 () (wE4.tasks.take 0) none).2.1 ++
          ([.recoverTried rTask, .ensureCalled rTask false,
            .logged (rTask.label ++ " " ++ "verified")
              (logKeysAndVals () rTask (wRecFn () none))] ++
            (ensureLoop wE4 () (wE4.tasks.drop 1) (wRecFn () none)).2.1)) :=
  ⟨⟨rfl, Or.inl rfl, rfl, rfl, rfl, rfl,
      fun s' h => by
        cases s' with
        | none => simp [rTask] at h
        | some r => rfl⟩,
    recovery_precedes_ensure wE4 () none 0 rTask wRecFn "verified" none rfl
      (Or.inl rfl) rfl rfl rfl rfl
      (fun s' h => by
        cases s' with
        | none => simp [rTask] at h
        | some r => rfl)⟩

/-- C5: `EnsureInfrastructureDeleted` runs the forward-order recovery
pre-pass exactly when a specification is supplied.  With a nil
specification the run is the bare delete pass: no recovery branch and no
lookup `Ensure` is ever entered, and the delete pass still visits every
task (in the error-free case all of them).  With a non-nil specification
the trace is the full forward pre-pass over every task followed by the
delete pass, every task's pre-pass `tryRecover` events appear in the run,
and the delete pass still visits every task. -/
theorem prePass_iff_spec_supplied (e : Ensurer Λ Κ Ν Spec σ) (spec : Spec)
    (s0 s1 : σ) :
    (EnsureInfrastructureDeleted e none s0
        = (e, (deleteLoop e.tasks.reverse s0).1,
            (deleteLoop e.tasks.reverse s0).2.1,
            (deleteLoop e.tasks.reverse s0).2.2) ∧
      recoverTrieds (EnsureInfrastructureDeleted e none s0).2.2.1 = [] ∧
      lookupCalls (EnsureInfrastructureDeleted e none s0).2.2.1 = [] ∧
      ((EnsureInfrastructureDeleted e none s0).2.2.2 = none →
        deletedCalls (EnsureInfrastructureDeleted e none s0).2.2.1
          = e.tasks.reverse)) ∧
    ((EnsureInfrastructureDeleted e (some spec) s1).2.2.1 =
        (recoverPrePass e spec e.tasks s1).2 ++
          (deleteLoop e.tasks.reverse (preAfter e spec e.tasks s1)).2.1 ∧
      (∀ (k : Nat) (tk : Task Spec σ), e.tasks.get? k = some tk →
        ∀ ev ∈ (tryRecover e spec (preAfter e spec (e.tasks.take k) s1) tk true).2.1,
          ev ∈ (EnsureInfrastructureDeleted e (some spec) s1).2.2.1) ∧
      ((EnsureInfrastructureDeleted e (some spec) s1).2.2.2 = none →
        deletedCalls (EnsureInfrastructureDeleted e (some spec) s1).2.2.1
          = e.tasks.reverse)) := by
  refine ⟨⟨rfl, ?_, ?_, ?_⟩, ?_, ?_, ?_⟩
  · simp only [EnsureInfrastructureDeleted, prePass, List.nil_append]
    exact (deleteLoop_no_recover e.tasks.reverse s0).1
  · simp only [EnsureInfrastructureDeleted, prePass, List.nil_append]
    exact (deleteLoop_no_recover e.tasks.reverse s0).2.1
  · intro h
    simp only [EnsureInfrastructureDeleted, prePass, List.nil_append] at h ⊢
    exact deleteLoop_ok_calls e.tasks.reverse s0 h
  · simp only [EnsureInfrastructureDeleted, prePass]
    rw [recoverPrePass_state e spec e.tasks s1]
  · intro k tk hk ev hev
    simp only [EnsureInfrastructureDeleted, prePass]
    refine List.mem_append.mpr (Or.inl ?_)
    rw [recoverPrePass_decomp e spec e.tasks s1 k tk hk]
    refine List.mem_append.mpr (Or.inr ?_)
    exact List.mem_append.mpr (Or.inl (List.mem_append.mpr (Or.inl hev)))
  · intro h
    simp only [EnsureInfrastructureDeleted, prePass] at h ⊢
    simp only [deletedCalls_append, recoverPrePass_deletedCalls, List.nil_append]
    exact deleteLoop_ok_calls _ _ h

/-- Witness for C5 at the three-task world: a nil-spec delete run and a
spec-supplied delete run, the latter exercising the lookup branch of the
pre-pass on the empty middle slot. -/
theorem prePass_iff_spec_supplied_witness :
    (EnsureInfrastructureDeleted wE3 none wSD
        = (wE3, (deleteLoop wE3.tasks.reverse wSD).1,
            (deleteLoop wE3.tasks.reverse wSD).2.1,
            (deleteLoop wE3.tasks.reverse wSD).2.2) ∧
      recoverTrieds (EnsureInfrastructureDeleted wE3 none wSD).2.2.1 = [] ∧
      lookupCalls (EnsureInfrastructureDeleted wE3 none wSD).2.2.1 = [] ∧
      deletedCalls (EnsureInfrastructureDeleted wE3 none wSD).2.2.1
        = wE3.tasks.reverse) ∧
    ((EnsureInfrastructureDeleted wE3 (some ()) wSD).2.2.1 =
        (recoverPrePass wE3 () wE3.tasks wSD).2 ++
          (deleteLoop wE3.tasks.reverse (preAfter wE3 () wE3.tasks wSD)).2.1 ∧
      wE3.tasks.get? 1 = some (wTask 1 "T1") ∧
      Event.ensureCalled (wTask 1 "T1") true
        ∈ (tryRecover wE3 () (preAfter wE3 () (wE3.tasks.take 1) wSD)
            (wTask 1 "T1") true).2.1 ∧
      Event.ensureCalled (wTask 1 "T1") true
        ∈ (EnsureInfrastructureDeleted wE3 (some ()) wSD).2.2.1 ∧
      ((EnsureInfrastructureDeleted wE3 (some ()) wSD).2.2.2 = none →
        deletedCalls (EnsureInfrastructureDeleted wE3 (some ()) wSD).2.2.1
          = wE3.tasks.reverse)) := by
  obtain ⟨⟨h1, h2, h3, h4⟩, h5, h6, h7⟩ := prePass_iff_spec_supplied wE3 () wSD wSD
  refine ⟨⟨h1, h2, h3, h4 (by decide)⟩, h5, rfl, List.Mem.head _, ?_, h7⟩
  exact h6 1 (wTask 1 "T1") rfl _ (List.Mem.head _)

/-- C6: `tryRecover` failures during the delete recovery pre-pass are
logged and swallowed.  Any error `EnsureInfrastructureDeleted` returns is
a wrapped delete-pass error (never a recovery error); a failing pre-pass
`tryRecover` contributes a `"try recover failed"` log line while the
pre-pass continues (its fold reaches the end of the task list), and the
delete pass still runs from the full pre-pass state, visiting every task
when it is itself error-free. -/
theorem deleteRecovery_errors_swallowed (e : Ensurer Λ Κ Ν Spec σ)
    (spec : Spec) (s0 : σ) :
    (∀ err, (EnsureInfrastructureDeleted e (some spec) s0).2.2.2 = some err →
      ∃ (tk : Task Spec σ) (err0 : String), tk ∈ e.tasks ∧
        err = wrapf err0 ("deleting " ++ tk.label ++ " failed")) ∧
    (∀ (k : Nat) (tk : Task Spec σ) (err0 : String),
      e.tasks.get? k = some tk →
      (tryRecover e spec (preAfter e spec (e.tasks.take k) s0) tk true).2.2
        = some err0 →
      Event.logged "try recover failed" (recoverFailKV spec tk)
        ∈ (EnsureInfrastructureDeleted e (some spec) s0).2.2.1) ∧
    ((EnsureInfrastructureDeleted e (some spec) s0).2.2.2
        = (deleteLoop e.tasks.reverse (preAfter e spec e.tasks s0)).2.2 ∧
      ((EnsureInfrastructureDeleted e (some spec) s0).2.2.2 = none →
        deletedCalls (EnsureInfrastructureDeleted e (some spec) s0).2.2.1
          = e.tasks.reverse)) := by
  refine ⟨?_, ?_, ?_, ?_⟩
  · intro err h
    simp only [EnsureInfrastructureDeleted] at h
    obtain ⟨m, tk, err0, hm, _, _, herr, _, _⟩ :=
      deleteLoop_err e.tasks.reverse (prePass e (some spec) s0).1 err h
    exact ⟨tk, err0, List.mem_reverse.mp (List.get?_mem hm), herr⟩
  · intro k tk err0 hk hfail
    simp only [EnsureInfrastructureDeleted, prePass]
    refine List.mem_append.mpr (Or.inl ?_)
    rw [recoverPrePass_decomp e spec e.tasks s0 k tk hk, hfail]
    refine List.mem_append.mpr (Or.inr ?_)
    refine List.mem_append.mpr (Or.inl ?_)
    exact List.mem_append.mpr (Or.inr (List.Mem.head _))
  · simp only [EnsureInfrastructureDeleted, prePass]
    rw [recoverPrePass_state e spec e.tasks s0]
  · intro h
    simp only [EnsureInfrastructureDeleted, prePass] at h ⊢
    simp only [deletedCalls_append, recoverPrePass_deletedCalls, List.nil_append]
    exact deleteLoop_ok_calls _ _ h

/-- A task failing both `Ensure` and `EnsureDeleted`. -/
def wBadTask : Task Unit WS where
  label := "B"
  nameToLog := fun _ => none
  reference := slot 0
  ensure := fun _ s => (s, .error "boom")
  ensureDeleted := fun s => (s, .error "delboom")
  recover := .notRecoverable

/-- An ensurer holding just the doubly failing task. -/
def wE6 : Ensurer Unit Unit Unit Unit WS := wEnsurer [wBadTask]

/-- Witness for C6: the pre-pass lookup `Ensure` fails (logged and
swallowed), and the only error the operation returns is the wrapped
delete-pass error. -/
theorem deleteRecovery_errors_swallowed_witness :
    ((EnsureInfrastructureDeleted wE6 (some ()) [none]).2.2.2
        = some "deleting B failed: delboom" ∧
      ∃ (tk : Task Unit WS) (err0 : String), tk ∈ wE6.tasks ∧
        "deleting B failed: delboom"
          = wrapf err0 ("deleting " ++ tk.label ++ " failed")) ∧
    (wE6.tasks.get? 0 = some wBadTask ∧
      (tryRecover wE6 () (preAfter wE6 () (wE6.tasks.take 0) [none])
          wBadTask true).2.2 = some "boom" ∧
      Event.logged "try recover failed" (recoverFailKV () wBadTask)
        ∈ (EnsureInfrastructureDeleted wE6 (some ()) [none]).2.2.1) ∧
    (EnsureInfrastructureDeleted wE6 (some ()) [none]).2.2.2
      = (deleteLoop wE6.tasks.reverse (preAfter wE6 () wE6.tasks [none])).2.2 := by
  obtain ⟨h1, h2, h3, _h4⟩ := deleteRecovery_errors_swallowed wE6 () [none]
  exact ⟨⟨by decide, h1 "deleting B failed: delboom" (by decide)⟩,
    ⟨rfl, by decide, h2 0 wBadTask "boom" rfl (by decide)⟩, h3⟩

/-- C7: in `EnsureInfrastructure`, a recovery branch for a task is entered
only when try-recover is enabled and the task's slot holds no reference;
the recovery attempt can never surface an error (`tryRecover` returns
`nil` on the reconcile path, and its result is discarded), and whatever
the recovery did, the task's `Ensure` is invoked immediately afterwards —
on its success all later tasks still run, so a recovery failure never
aborts the pipeline.  (Per the spec, failures inside the task package's
`TryRecover` are handled and logged there; the orchestrator never sees
them.) -/
theorem reconcile_recovery_guarded_nonaborting (e : Ensurer Λ Κ Ν Spec σ)
    (spec : Spec) (s0 : σ) (k : Nat) (tk : Task Spec σ) (sc : σ)
    (hk : e.tasks.get? k = some tk)
    (hsc : sc = afterTasks e spec (e.tasks.take k) s0)
    (hpre : (ensureLoop e spec (e.tasks.take k) s0).2.2 = none) :
    (∀ t : Task Spec σ,
      Event.recoverTried t ∈ (tryRecover e spec sc tk false).2.1 →
        e.IsTryRecoverEnabled = true ∧ tk.reference sc = none) ∧
    (tryRecover e spec sc tk false).2.2 = none ∧
    (∀ err0, (tk.ensure spec (tryRecover e spec sc tk false).1).2 = .error err0 →
      (EnsureInfrastructure e spec s0).2.2.1 =
        (ensureLoop e spec (e.tasks.take k) s0).2.1 ++
          ((tryRecover e spec sc tk false).2.1 ++ [.ensureCalled tk false])) ∧
    (∀ a, (tk.ensure spec (tryRecover e spec sc tk false).1).2 = .ok a →
      (EnsureInfrastructure e spec s0).2.2.1 =
        (ensureLoop e spec (e.tasks.take k) s0).2.1 ++
          ((tryRecover e spec sc tk false).2.1 ++
            ([.ensureCalled tk false,
              .logged (tk.label ++ " " ++ a)
                (logKeysAndVals spec tk (afterTask e spec tk sc))] ++
              (ensureLoop e spec (e.tasks.drop (k + 1))
                (afterTask e spec tk sc)).2.1))) := by
  have hsplit := list_get_split e.tasks k tk hk
  refine ⟨fun t ht => tryRecover_tried_guard e spec sc tk t false ht,
    tryRecover_false_err e spec sc tk, ?_, ?_⟩
  · intro err0 herr
    simp only [EnsureInfrastructure]
    conv_lhs => rw [hsplit]
    rw [ensureLoop_append_ok e spec (e.tasks.take k) (tk :: e.tasks.drop (k + 1))
        s0 hpre,
      ensureLoop_ok_state e spec (e.tasks.take k) s0 hpre, ← hsc,
      ensureLoop_cons_err e spec tk (e.tasks.drop (k + 1)) sc err0 herr]
  · intro a ha
    simp only [EnsureInfrastructure]
    conv_lhs => rw [hsplit]
    rw [ensureLoop_append_ok e spec (e.tasks.take k) (tk :: e.tasks.drop (k + 1))
        s0 hpre,
      ensureLoop_ok_state e spec (e.tasks.take k) s0 hpre, ← hsc,
      ensureLoop_cons_ok e spec tk (e.tasks.drop (k + 1)) sc a ha]
    simp

/-- Witness for C7 at the recoverable single-task world: the recovery
branch is entered from an empty slot, returns no error, and `Ensure` runs
right after it with the rest of the (empty) pipeline following. -/
theorem reconcile_recovery_guarded_nonaborting_witness :
    (wE4.tasks.get? 0 = some rTask ∧
      (none : Option Reference) = afterTasks wE4 () (wE4.tasks.take 0) none ∧
      (ensureLoop wE4 () (wE4.tasks.take 0) none).2.2 = none ∧
      Event.recoverTried rTask ∈ (tryRecover wE4 () none rTask false).2.1 ∧
      (rTask.ensure () (tryRecover wE4 () none rTask false).1).2 = .ok "verified") ∧
    ((wE4.IsTryRecoverEnabled = true ∧ rTask.reference none = none) ∧
      (tryRecover wE4 () none rTask false).2.2 = none ∧
      (EnsureInfrastructure wE4 () none).2.2.1 =
        (ensureLoop wE4 () (wE4.tasks.take 0) none).2.1 ++
          ((tryRecover wE4 () none rTask false).2.1 ++
            ([.ensureCalled rTask false,
              .logged (rTask.label ++ " " ++ "verified")
                (logKeysAndVals () rTask (afterTask wE4 () rTask none))] ++
              (ensureLoop wE4 () (wE4.tasks.drop 1)
                (afterTask wE4 () rTask none)).2.1))) := by
  obtain ⟨g1, g2, g3, g4⟩ :=
    reconcile_recovery_guarded_nonaborting wE4 () none 0 rTask none rfl rfl rfl
  exact ⟨⟨rfl, rfl, rfl, List.Mem.head _, rfl⟩,
    g1 rTask (List.Mem.head _), g2, g4 "verified" rfl⟩

/-- If every task of the ambient list preserves `isSome` of a task's
stored reference across its reconcile step, so does any fold over tasks
drawn from that list. -/
lemma refs_isSome_preserved (e : Ensurer Λ Κ Ν Spec σ) (spec : Spec)
    (E : List (Task Spec σ)) (tk : Task Spec σ) (_htk : tk ∈ E)
    (hframe : ∀ t' ∈ E, ∀ s : σ,
      (tk.reference s).isSome → (tk.reference (afterTask e spec t' s)).isSome) :
    ∀ (ts : List (Task Spec σ)), (∀ t ∈ ts, t ∈ E) →
      ∀ s : σ, (tk.reference s).isSome →
        (tk.reference (afterTasks e spec ts s)).isSome := by
  intro ts
  induction ts with
  | nil => intro _ s hs; exact hs
  | cons t ts ih =>
      intro hsub s hs
      rw [afterTasks_cons]
      exact ih (fun u hu => hsub u (List.mem_cons_of_mem t hu)) _
        (hframe t (hsub t (List.mem_cons_self t ts)) s hs)

/-- After an error-free reconcile loop over tasks drawn from the ambient
list, every one of them holds a reference in the final state — provided
each task records a reference on successful `Ensure` and the other tasks'
steps never drop it. -/
lemma ensureLoop_refs_set (e : Ensurer Λ Κ Ν Spec σ) (spec : Spec)
    (E : List (Task Spec σ))
    (hcreates : ∀ tk ∈ E, ∀ s : σ, ∀ a, (tk.ensure spec s).2 = .ok a →
      (tk.reference (tk.ensure spec s).1).isSome)
    (hframe : ∀ tk ∈ E, ∀ t' ∈ E, ∀ s : σ,
      (tk.reference s).isSome → (tk.reference (afterTask e spec t' s)).isSome) :
    ∀ (ts : List (Task Spec σ)), (∀ t ∈ ts, t ∈ E) →
      ∀ s : σ, (ensureLoop e spec ts s).2.2 = none →
        ∀ tk ∈ ts, (tk.reference (afterTasks e spec ts s)).isSome := by
  intro ts
  induction ts with
  | nil => intro _ s _ tk htk; simp at htk
  | cons t ts ih =>
      intro hsub s hrun tk htk
      have htE : t ∈ E := hsub t (List.mem_cons_self t ts)
      have hsubts : ∀ u ∈ ts, u ∈ E := fun u hu => hsub u (List.mem_cons_of_mem t hu)
      cases hr : (t.ensure spec (tryRecover e spec s t false).1).2 with
      | error err =>
          rw [ensureLoop_cons_err e spec t ts s err hr] at hrun
          simp at hrun
      | ok a =>
          rw [ensureLoop_cons_ok e spec t ts s a hr] at hrun
          rw [afterTasks_cons]
          rcases List.mem_cons.mp htk with rfl | htk'
          · have hset : (tk.reference (afterTask e spec tk s)).isSome :=
              hcreates tk htE _ a hr
            exact refs_isSome_preserved e spec E tk htE
              (fun t' ht' => hframe tk htE t' ht') ts hsubts _ hset
          · exact ih hsubts _ hrun tk htk'

/-- A reconcile loop over tasks that all already hold a reference and all
take the no-op path: the state is returned untouched, no error occurs,
and every task's `Ensure` is still invoked exactly once, in order. -/
lemma ensureLoop_noop_run (e : Ensurer Λ Κ Ν Spec σ) (spec : Spec)
    (noopA : String) :
    ∀ (ts : List (Task Spec σ)) (s : σ),
      (∀ t ∈ ts, (t.reference s).isSome ∧ t.ensure spec s = (s, .ok noopA)) →
      (ensureLoop e spec ts s).1 = s ∧
      (ensureLoop e spec ts s).2.2 = none ∧
      ensureCalls (ensureLoop e spec ts s).2.1 = ts := by
  intro ts
  induction ts with
  | nil => intro s _; exact ⟨rfl, rfl, rfl⟩
  | cons t ts ih =>
      intro s hall
      obtain ⟨hsome, hens⟩ := hall t (List.mem_cons_self t ts)
      have htr : tryRecover e spec s t false = (s, [], none) :=
        tryRecover_eq_of_ref e spec s t false hsome
      have hr : (t.ensure spec (tryRecover e spec s t false).1).2 = .ok noopA := by
        rw [htr]
        exact congrArg Prod.snd hens
      have hafter : afterTask e spec t s = s := by
        rw [afterTask, htr]
        exact congrArg Prod.fst hens
      obtain ⟨ih1, ih2, ih3⟩ :=
        ih s (fun u hu => hall u (List.mem_cons_of_mem t hu))
      rw [ensureLoop_cons_ok e spec t ts s noopA hr, hafter, htr]
      exact ⟨ih1, ih2, by simp [ih3]⟩

/-- C8: under the per-task idempotence contracts modelled from the spec —
`hidem`: with a reference present, `Ensure` takes the no-op path and
leaves state unchanged; `hcreates`: a successful `Ensure` leaves a
reference in state; `hframe`: no task's step drops another task's (or its
own re-run's) stored reference — a successful `EnsureInfrastructure`
followed by a second call with no remote-side change makes the second
call return `nil`, leave the state exactly as it was, invoke every task's
`Ensure` once in order, and obtain the no-op action from every one of
them: zero creations. -/
theorem reconcile_idempotent (e : Ensurer Λ Κ Ν Spec σ) (spec : Spec)
    (s0 s1 : σ) (noopA : String)
    (hidem : ∀ tk ∈ e.tasks, ∀ s : σ, (tk.reference s).isSome →
      tk.ensure spec s = (s, .ok noopA))
    (hcreates : ∀ tk ∈ e.tasks, ∀ s : σ, ∀ a, (tk.ensure spec s).2 = .ok a →
      (tk.reference (tk.ensure spec s).1).isSome)
    (hframe : ∀ tk ∈ e.tasks, ∀ t' ∈ e.tasks, ∀ s : σ,
      (tk.reference s).isSome → (tk.reference (afterTask e spec t' s)).isSome)
    (hfirst : (EnsureInfrastructure e spec s0).2.2.2 = none)
    (hs1 : s1 = (EnsureInfrastructure e spec s0).2.1) :
    (∀ tk ∈ e.tasks, tk.ensure spec s1 = (s1, .ok noopA)) ∧
    (EnsureInfrastructure e spec s1).2.1 = s1 ∧
    (EnsureInfrastructure e spec s1).2.2.2 = none ∧
    ensureCalls (EnsureInfrastructure e spec s1).2.2.1 = e.tasks := by
  simp only [EnsureInfrastructure] at hfirst hs1 ⊢
  have hs1' : s1 = afterTasks e spec e.tasks s0 := by
    rw [hs1, ensureLoop_ok_state e spec e.tasks s0 hfirst]
  have hrefs : ∀ tk ∈ e.tasks, (tk.reference s1).isSome := by
    intro tk htk
    rw [hs1']
    exact ensureLoop_refs_set e spec e.tasks hcreates hframe e.tasks
      (fun _ h => h) s0 hfirst tk htk
  have hnoop : ∀ tk ∈ e.tasks, tk.ensure spec s1 = (s1, .ok noopA) :=
    fun tk htk => hidem tk htk s1 (hrefs tk htk)
  have hall : ∀ t ∈ e.tasks, (t.reference s1).isSome ∧
      t.ensure spec s1 = (s1, .ok noopA) :=
    fun t ht => ⟨hrefs t ht, hnoop t ht⟩
  obtain ⟨h1, h2, h3⟩ := ensureLoop_noop_run e spec noopA e.tasks s1 hall
  exact ⟨hnoop, h1, h2, h3⟩

/-- Witness for C8: the single-slot recoverable task satisfies all three
contracts; after a first successful reconcile from the empty state, the
second reconcile is a no-op. -/
theorem reconcile_idempotent_witness :
    ((∀ tk ∈ wE4.tasks, ∀ s : Option Reference, (tk.reference s).isSome →
        tk.ensure () s = (s, .ok "verified")) ∧
      (∀ tk ∈ wE4.tasks, ∀ s : Option Reference, ∀ a, (tk.ensure () s).2 = .ok a →
        (tk.reference (tk.ensure () s).1).isSome) ∧
      (∀ tk ∈ wE4.tasks, ∀ t' ∈ wE4.tasks, ∀ s : Option Reference,
        (tk.reference s).isSome →
          (tk.reference (afterTask wE4 () t' s)).isSome) ∧
      (EnsureInfrastructure wE4 () none).2.2.2 = none ∧
      (EnsureInfrastructure wE4 () none).2.1 = some (wRef "rec")) ∧
    ((∀ tk ∈ wE4.tasks, tk.ensure () (some (wRef "rec"))
        = (some (wRef "rec"), .ok "verified")) ∧
      (EnsureInfrastructure wE4 () (some (wRef "rec"))).2.1 = some (wRef "rec") ∧
      (EnsureInfrastructure wE4 () (some (wRef "rec"))).2.2.2 = none ∧
      ensureCalls (EnsureInfrastructure wE4 () (some (wRef "rec"))).2.2.1
        = wE4.tasks) := by
  have hidem : ∀ tk ∈ wE4.tasks, ∀ s : Option Reference, (tk.reference s).isSome →
      tk.ensure () s = (s, .ok "verified") := by
    intro tk htk s hs
    rcases List.mem_singleton.mp htk with rfl
    cases s with
    | none => simp [rTask] at hs
    | some r => rfl
  have hcreates : ∀ tk ∈ wE4.tasks, ∀ s : Option Reference, ∀ a,
      (tk.ensure () s).2 = .ok a → (tk.reference (tk.ensure () s).1).isSome := by
    intro tk htk s a _
    rcases List.mem_singleton.mp htk with rfl
    cases s <;> rfl
  have hframe : ∀ tk ∈ wE4.tasks, ∀ t' ∈ wE4.tasks, ∀ s : Option Reference,
      (tk.reference s).isSome → (tk.reference (afterTask wE4 () t' s)).isSome := by
    intro tk htk t' ht' s hs
    rcases List.mem_singleton.mp htk with rfl
    rcases List.mem_singleton.mp ht' with rfl
    cases s with
    | none => simp [rTask] at hs
    | some r => rfl
  obtain ⟨c1, c2, c3, c4⟩ := reconcile_idempotent wE4 () none (some (wRef "rec"))
    "verified" hidem hcreates hframe (by decide) (by decide)
  exact ⟨⟨hidem, hcreates, hframe, by decide, by decide⟩, c1, c2, c3, c4⟩

/-- C9: `tryRecover`'s lookup branch.  On the reconcile path
(`lookup = false`) the branch is never taken: `tryRecover` returns `nil`
and invokes no `Ensure` whatsoever.  On the delete pre-pass
(`lookup = true`), a task implementing neither recovery capability whose
slot holds no reference has its `Ensure` invoked — the post-state is
whatever `Ensure` wrote (possibly recording a reference) and the call's
error is passed through — and that lookup invocation shows up in the
`EnsureInfrastructureDeleted` trace. -/
theorem tryRecover_lookup_branch (e : Ensurer Λ Κ Ν Spec σ) (spec : Spec)
    (s0 : σ) :
    (∀ (s : σ) (tsk : Task Spec σ),
      (tryRecover e spec s tsk false).2.2 = none ∧
      ensureCalls (tryRecover e spec s tsk false).2.1 = []) ∧
    (∀ (s : σ) (tsk : Task Spec σ), tsk.recover = .notRecoverable →
      tsk.reference s = none →
      tryRecover e spec s tsk true
        = ((tsk.ensure spec s).1, [.ensureCalled tsk true],
            exceptErr (tsk.ensure spec s).2)) ∧
    (∀ (k : Nat) (tk : Task Spec σ), e.tasks.get? k = some tk →
      tk.recover = .notRecoverable →
      tk.reference (preAfter e spec (e.tasks.take k) s0) = none →
      Event.ensureCalled tk true
        ∈ (EnsureInfrastructureDeleted e (some spec) s0).2.2.1) := by
  have hbranch : ∀ (s : σ) (tsk : Task Spec σ), tsk.recover = .notRecoverable →
      tsk.reference s = none →
      tryRecover e spec s tsk true
        = ((tsk.ensure spec s).1, [.ensureCalled tsk true],
            exceptErr (tsk.ensure spec s).2) := by
    intro s tsk hnr hnone
    rw [tryRecover_eq_of_noRef e spec s tsk true hnone, hnr]
  refine ⟨fun s tsk => ⟨tryRecover_false_err e spec s tsk,
    tryRecover_false_ensureCalls e spec s tsk⟩, hbranch, ?_⟩
  intro k tk hk hnr hnone
  simp only [EnsureInfrastructureDeleted, prePass]
  refine List.mem_append.mpr (Or.inl ?_)
  rw [recoverPrePass_decomp e spec e.tasks s0 k tk hk]
  refine List.mem_append.mpr (Or.inr ?_)
  refine List.mem_append.mpr (Or.inl ?_)
  refine List.mem_append.mpr (Or.inl ?_)
  rw [hbranch _ tk hnr hnone]
  exact List.Mem.head _

/-- Witness for C9 at the three-task world: the middle task is
non-recoverable with an empty slot, so the delete pre-pass invokes its
`Ensure` via the lookup branch, while on the reconcile path `tryRecover`
yields `nil` and no `Ensure` call. -/
theorem tryRecover_lookup_branch_witness :
    ((tryRecover wE3 () wSD (wTask 0 "T0") false).2.2 = none ∧
      ensureCalls (tryRecover wE3 () wSD (wTask 0 "T0") false).2.1 = []) ∧
    ((wTask 1 "T1").recover = .notRecoverable ∧
      (wTask 1 "T1").reference wSD = none ∧
      tryRecover wE3 () wSD (wTask 1 "T1") true
        = (((wTask 1 "T1").ensure () wSD).1, [.ensureCalled (wTask 1 "T1") true],
            exceptErr (((wTask 1 "T1").ensure () wSD).2))) ∧
    (wE3.tasks.get? 1 = some (wTask 1 "T1") ∧
      (wTask 1 "T1").reference (preAfter wE3 () (wE3.tasks.take 1) wSD) = none ∧
      Event.ensureCalled (wTask 1 "T1") true
        ∈ (EnsureInfrastructureDeleted wE3 (some ()) wSD).2.2.1) := by
  obtain ⟨g1, g2, g3⟩ := tryRecover_lookup_branch wE3 () wSD
  exact ⟨g1 wSD (wTask 0 "T0"),
    ⟨rfl, by decide, g2 wSD (wTask 1 "T1") rfl (by decide)⟩,
    rfl, by decide, g3 1 (wTask 1 "T1") rfl rfl (by decide)⟩

/-- C10: neither operation modifies the ensurer: the threaded receiver
comes back as the very value that went in (so every task call during the
run saw the same unchanged ensurer as its context), each of its four
fields is unchanged, `IsTryRecoverEnabled` is `true` on every call, and
the complete output of each operation beyond the receiver is the final
state, the event trace and the optional error — the supplied state is the
only caller-visible data either operation mutates. -/
theorem ensurer_receiver_unchanged (e : Ensurer Λ Κ Ν Spec σ) (spec : Spec)
    (specOpt : Option Spec) (s0 s1 : σ) :
    (EnsureInfrastructure e spec s0).1 = e ∧
    (EnsureInfrastructureDeleted e specOpt s1).1 = e ∧
    ((EnsureInfrastructure e spec s0).1).logger = e.logger ∧
    ((EnsureInfrastructure e spec s0).1).connector = e.connector ∧
    ((EnsureInfrastructure e spec s0).1).nsxtClient = e.nsxtClient ∧
    ((EnsureInfrastructure e spec s0).1).tasks = e.tasks ∧
    ((EnsureInfrastructureDeleted e specOpt s1).1).logger = e.logger ∧
    ((EnsureInfrastructureDeleted e specOpt s1).1).connector = e.connector ∧
    ((EnsureInfrastructureDeleted e specOpt s1).1).nsxtClient = e.nsxtClient ∧
    ((EnsureInfrastructureDeleted e specOpt s1).1).tasks = e.tasks ∧
    e.IsTryRecoverEnabled = true ∧
    EnsureInfrastructure e spec s0 = (e, ensureLoop e spec e.tasks s0) ∧
    EnsureInfrastructureDeleted e specOpt s1
      = (e, (deleteLoop e.tasks.reverse (prePass e specOpt s1).1).1,
          (prePass e specOpt s1).2 ++
            (deleteLoop e.tasks.reverse (prePass e specOpt s1).1).2.1,
          (deleteLoop e.tasks.reverse (prePass e specOpt s1).1).2.2) :=
  ⟨rfl, rfl, rfl, rfl, rfl, rfl, rfl, rfl, rfl, rfl, rfl, rfl, rfl⟩

end VsphereInfra
